import Mathlib

/-!
Shallow embedding of the regression-performance metric module
(`src/evidently/v2/metrics/regression_performance_metrics.py`) together with
a spec-modelled image of its external analyzer collaborator, and proofs of
the frozen claims about them.

Modelling conventions:
* numeric column values are rationals (exact arithmetic in place of IEEE
  floats);
* a row carries the already-mapped `target` and `prediction` columns, so the
  read-only column mapping of the source is implicit in the `Row` type;
* missing values are not modelled — every row is valid (the spec itself
  flags the source's lack of missing-value filtering as a latent defect);
* Python `raise` is modelled as `Except.error`.
-/

deriving instance DecidableEq for Except

/-- One row of a dataset: the `target` (ground truth) and `prediction`
column values. -/
structure Row where
  target : ℚ
  pred : ℚ
deriving DecidableEq

/-- A pandas DataFrame as used by this module: the ordered rows plus the
optional derived `target_binned` column (the per-row quantization-bin index
that `_me_mae_distr` writes on its private copy). -/
structure Frame where
  rows : List Row
  binned : Option (List ℕ) := none
deriving DecidableEq

/-- `df[column_mapping.target]`. -/
def targets (f : Frame) : List ℚ := f.rows.map Row.target

/-- `df[column_mapping.prediction]`. -/
def predictions (f : Frame) : List ℚ := f.rows.map Row.pred

/-- The error series `df[target] - df[prediction]` (line 95 of the source). -/
def errorSeries (f : Frame) : List ℚ := f.rows.map (fun r => r.target - r.pred)

/-- `Series.nunique(dropna=True)`: the number of distinct values. -/
def nunique (l : List ℚ) : ℕ := l.dedup.length

/-- Minimum of a list (0 on the empty list, which never occurs in use). -/
def listMin : List ℚ → ℚ
  | [] => 0
  | [x] => x
  | x :: y :: t => min x (listMin (y :: t))

/-- Maximum of a list (0 on the empty list, which never occurs in use). -/
def listMax : List ℚ → ℚ
  | [] => 0
  | [x] => x
  | x :: y :: t => max x (listMax (y :: t))

/-- Mean of a list (with the rational `x / 0 = 0` convention when empty). -/
def meanList (l : List ℚ) : ℚ := l.sum / l.length

/-- Population variance; stands in for the standard deviation in the
spec-modelled analyzer (see `referenceMetricsOf`). -/
def varList (l : List ℚ) : ℚ := meanList (l.map (fun x => (x - meanList l) ^ 2))

/-- The 0.1% padding pandas `cut` applies around a constant column:
`mn -= 0.001 * abs(mn) if mn != 0 else 0.001`, symmetrically on the right. -/
def cutPad (mn : ℚ) : ℚ := if mn = 0 then 1 / 1000 else |mn| / 1000

/-- Quantization-bin index `pd.cut(series, k)` assigns to the value `v`, for
a column with minimum `mn` and maximum `mx`: the bins are `k` equal-width
right-closed intervals over `[mn, mx]` (the left edge of bin 0 is lowered by
0.1% of the range so the column minimum is included); a constant column is
first padded by `cutPad` on both sides.  For the unadjusted edges `e_i`,
membership `v ∈ (e_i, e_(i+1)]` is equivalent to
`i = ⌈(v - e_0) * k / (e_k - e_0)⌉ - 1`, which is the formula used here. -/
def cutIndex (mn mx : ℚ) (k : ℕ) (v : ℚ) : ℕ :=
  if mn < mx then (Rat.ceil ((v - mn) * k / (mx - mn)) - 1).toNat
  else (Rat.ceil ((v - (mn - cutPad mn)) * k / (2 * cutPad mn)) - 1).toNat

/-- Lower edge of quantization bin `i` as reported in the `pd.cut` interval
label (bin 0 shows the adjusted lower edge). -/
def cutLeftEdge (mn mx : ℚ) (k : ℕ) (i : ℕ) : ℚ :=
  if mn < mx then
    if i = 0 then mn - (mx - mn) / 1000 else mn + i * (mx - mn) / k
  else mn - cutPad mn + i * (2 * cutPad mn) / k

/-- Upper edge of quantization bin `i` in the `pd.cut` interval label. -/
def cutRightEdge (mn mx : ℚ) (k : ℕ) (i : ℕ) : ℚ :=
  if mn < mx then mn + (i + 1) * (mx - mn) / k
  else mn - cutPad mn + (i + 1) * (2 * cutPad mn) / k

/-- Minimum of the target column. -/
def tMin (f : Frame) : ℚ := listMin (targets f)

/-- Maximum of the target column. -/
def tMax (f : Frame) : ℚ := listMax (targets f)

/-- `min(count_uniq_values, 10)` — the quantization bin count (lines 92–93). -/
def cutK (f : Frame) : ℕ := min (nunique (targets f)) 10

/-- The quantization-bin index of one row under
`pd.cut(df[target], min(count_uniq_values, 10))`. -/
def rowBin (f : Frame) (r : Row) : ℕ := cutIndex (tMin f) (tMax f) (cutK f) r.target

/-- The derived `target_binned` column (line 93). -/
def binnedColumn (f : Frame) : List ℕ := f.rows.map (rowBin f)

/-- `df = df.copy()` (line 91): a fresh table holding the same value. -/
def frameCopy (f : Frame) : Frame := f

/-- The private working table of `_me_mae_distr`: the copy of the caller's
table with the derived `target_binned` column written into it (lines 91–93).
The caller's own table is never written. -/
def binnerWorkFrame (f : Frame) : Frame :=
  { frameCopy f with binned := some (binnedColumn f) }

/-- The rows of quantization bin `i` — one group of
`df.groupby('target_binned')` (line 99), read off the `target_binned`
column of the working table. -/
def binRows (f : Frame) (i : ℕ) : List Row :=
  f.rows.filter (fun r => rowBin f r == i)

/-- `df.target_binned.value_counts()[i]`: how many rows fall in bin `i`. -/
def binCount (f : Frame) (i : ℕ) : ℕ := (binnedColumn f).count i

/-- `mean_absolute_error` of one group (lines 99–101). -/
def binMae (f : Frame) (i : ℕ) : ℚ :=
  ((binRows f i).map (fun r => |r.target - r.pred|)).sum / binCount f i

/-- The `binned_mae` entry list `[(idx, mae[idx], value) ...]` (line 104).
`value_counts()` on a categorical column reports every category, so after
`sort_index()` there is one entry per quantization bin, in ascending
interval order; the interval label is rendered as its (lower, upper) edge
pair. -/
def maeEntries (f : Frame) : List ((ℚ × ℚ) × ℚ × ℕ) :=
  (List.range (cutK f)).map (fun i =>
    ((cutLeftEdge (tMin f) (tMax f) (cutK f) i,
      cutRightEdge (tMin f) (tMax f) (cutK f) i),
     binMae f i, binCount f i))

/-- The edge range `np.histogram` uses: `[min, max]` of the data, widened to
`[min - 0.5, max + 0.5]` when the data are constant. -/
def histRange (data : List ℚ) : ℚ × ℚ :=
  if listMin data = listMax data then (listMin data - 1 / 2, listMax data + 1 / 2)
  else (listMin data, listMax data)

/-- Left edge of histogram bin `j` among `k` equal-width bins:
`np.histogram_bin_edges` returns `linspace(first, last, k + 1)`. -/
def histEdge (first last : ℚ) (k j : ℕ) : ℚ := first + j * (last - first) / k

/-- Histogram bin of a value: `np.histogram` uses half-open bins
`[e_j, e_(j+1))` with the last bin closed, so for in-range data the bin
index is `⌊(x - first) * k / (last - first)⌋` clamped to `k - 1`. -/
def histIndex (first last : ℚ) (k : ℕ) (x : ℚ) : ℕ :=
  min (Rat.floor ((x - first) * k / (last - first))).toNat (k - 1)

/-- The histogram-bin index of every point of the error series. -/
def histIndices (k : ℕ) (data : List ℚ) : List ℕ :=
  data.map (histIndex (histRange data).1 (histRange data).2 k)

/-- The `me_distr` entry list `[(y, x) for x, y in zip(counts, edges)]`
(line 103): bin `j`'s left edge paired with bin `j`'s count, for each of the
`k` bins in ascending order. -/
def meEntries (k : ℕ) (data : List ℚ) : List (ℚ × ℕ) :=
  (List.range k).map (fun j =>
    (histEdge (histRange data).1 (histRange data).2 k j,
     (histIndices k data).count j))

/-- `_me_mae_distr` (lines 90–104), parameterised by `kHist`, the histogram
bin count that `np.histogram_bin_edges(data, bins="doane")` selects.  The
Doane rule is a deterministic function of the data that always yields at
least one bin; it is computed with floating-point `log`/`sqrt`, so the
theorems below quantify over every `kHist ≥ 1` rather than fix one value.
Failure cases of the source are modelled as `Except.error`: `pd.cut` raises
when the bin count is zero (empty target column), and an empty quantization
bin makes the `groupby(...).apply(mean_absolute_error)` call (or the
`mae[idx]` lookup) raise, since scikit-learn refuses zero-sample input. -/
def me_mae_distr (kHist : ℕ) (df : Frame) :
    Except String (List (ℚ × ℕ) × List ((ℚ × ℚ) × ℚ × ℕ)) :=
  if cutK df = 0 then Except.error "bins must be positive"
  else if (List.range (cutK df)).all (fun i => binCount df i != 0) then
    Except.ok (meEntries kHist (errorSeries df), maeEntries df)
  else Except.error "Found array with 0 samples"

/-- The Distribution Binner with its frame effect made explicit: the second
component is the caller's table after the call.  `df = df.copy()` rebinds
the local name to the fresh `binnerWorkFrame`, so the caller's table comes
back unchanged. -/
def bin_distributions (kHist : ℕ) (df : Frame) :
    Except String (List (ℚ × ℕ) × List ((ℚ × ℚ) × ℚ × ℕ)) × Frame :=
  (me_mae_distr kHist df, df)

/-- `sklearn.metrics.mean_squared_error` on the current data (lines 62–65):
the mean of the squared errors. -/
def mean_squared_error (f : Frame) : ℚ :=
  meanList (f.rows.map (fun r => (r.target - r.pred) ^ 2))

/-- `sklearn.metrics.r2_score` (lines 58–61): `1 - SS_res / SS_tot`, with
scikit-learn's degenerate-denominator convention. -/
def r2_score (f : Frame) : ℚ :=
  let m := meanList (targets f)
  let den := (f.rows.map (fun r => (r.target - m) ^ 2)).sum
  let num := (f.rows.map (fun r => (r.target - r.pred) ^ 2)).sum
  if den == 0 then (if num == 0 then 1 else 0) else 1 - num / den

/-- Modelled from the spec: the scalar block the external
`RegressionPerformanceAnalyzer` (not under `src/`) reports for the dataset
passed in its `reference_data` slot (spec §6).  `error_normality` and
`underperformance` are opaque diagnostics of that dataset; they are
modelled as deterministic summaries (the error series and its absolute
values).  The three `*_std` fields are modelled by the variance — the
square of the standard deviation — to stay in exact arithmetic. -/
structure ReferenceMetrics where
  mean_error : ℚ
  mean_abs_error : ℚ
  mean_abs_perc_error : ℚ
  abs_error_max : ℚ
  error_std : ℚ
  abs_error_std : ℚ
  abs_perc_error_std : ℚ
  error_normality : List ℚ
  underperformance : List ℚ
deriving DecidableEq

/-- Modelled from the spec: the analyzer's output shape (spec §6), a scalar
block for the baseline plus an optional error-bias comparison. -/
structure AnalyzerResults where
  reference_metrics : ReferenceMetrics
  error_bias : Option (List ℚ × List ℚ)
deriving DecidableEq

/-- Modelled from the spec: the metrics the analyzer computes on the
dataset it receives as `reference_data` (spec §6 and glossary). -/
def referenceMetricsOf (f : Frame) : ReferenceMetrics :=
  { mean_error := meanList (errorSeries f)
    mean_abs_error := meanList ((errorSeries f).map abs)
    mean_abs_perc_error :=
      100 * meanList (f.rows.map (fun r => |r.target - r.pred| / |r.target|))
    abs_error_max := listMax ((errorSeries f).map abs)
    error_std := varList (errorSeries f)
    abs_error_std := varList ((errorSeries f).map abs)
    abs_perc_error_std :=
      varList (f.rows.map (fun r => 100 * |r.target - r.pred| / |r.target|))
    error_normality := errorSeries f
    underperformance := (errorSeries f).map abs }

/-- Modelled from the spec: `RegressionPerformanceAnalyzer.calculate`, whose
implementation lives outside `src/`.  Per spec §4.2 step 1 and §6 it reports
the scalar block for its `reference_data` argument, and an error-bias
comparison only when a `current_data` argument is supplied. -/
def RegressionPerformanceAnalyzer.calculate
    (reference_data : Frame) (current_data : Option Frame) : AnalyzerResults :=
  { reference_metrics := referenceMetricsOf reference_data
    error_bias :=
      current_data.map (fun c => (errorSeries reference_data, errorSeries c)) }

/-- The result dataclass of the source (lines 17–34); list/option types
mirror the Python field types, with rationals for floats. -/
structure RegressionPerformanceMetricsResults where
  r2_score : ℚ
  rmsa : ℚ
  mean_error : ℚ
  me_distr : List (ℚ × ℕ)
  ref_me_distr : Option (List (ℚ × ℕ))
  mean_abs_error : ℚ
  mae_distr : List ((ℚ × ℚ) × ℚ × ℕ)
  ref_mae_distr : Option (List ((ℚ × ℚ) × ℚ × ℕ))
  mean_abs_perc_error : ℚ
  abs_error_max : ℚ
  error_std : ℚ
  abs_error_std : ℚ
  abs_perc_error_std : ℚ
  error_normality : List ℚ
  underperformance : List ℚ
  error_bias : Option (List ℚ × List ℚ)
deriving DecidableEq

/-- `InputData` as consumed here: the current and optional reference table
(the column mapping of the source is already applied inside `Row`). -/
structure InputData where
  current_data : Option Frame
  reference_data : Option Frame
deriving DecidableEq

/-- `RegressionPerformanceMetrics.calculate` (lines 41–87), parameterised by
the Doane histogram bin count exactly as `me_mae_distr` is.  The unused
`metrics` dict parameter of the source is omitted; `raise ValueError` is
modelled as `Except.error`. -/
def calculate (kHist : ℕ) (data : InputData) :
    Except String RegressionPerformanceMetricsResults :=
  match data.current_data with
  | none => Except.error "current dataset should be present"
  | some cur =>
    let analyzer_results :=
      match data.reference_data with
      | none => RegressionPerformanceAnalyzer.calculate cur none
      | some ref => RegressionPerformanceAnalyzer.calculate ref (some cur)
    let r2_score_value := r2_score cur
    let rmsa_score_value := mean_squared_error cur
    match me_mae_distr kHist cur with
    | Except.error e => Except.error e
    | Except.ok (me_distr, mae_distr) =>
      match data.reference_data with
      | none =>
        Except.ok
          { r2_score := r2_score_value
            rmsa := rmsa_score_value
            mean_error := analyzer_results.reference_metrics.mean_error
            me_distr := me_distr
            ref_me_distr := none
            mean_abs_error := analyzer_results.reference_metrics.mean_abs_error
            mae_distr := mae_distr
            ref_mae_distr := none
            mean_abs_perc_error := analyzer_results.reference_metrics.mean_abs_perc_error
            abs_error_max := analyzer_results.reference_metrics.abs_error_max
            error_std := analyzer_results.reference_metrics.error_std
            abs_error_std := analyzer_results.reference_metrics.abs_error_std
            abs_perc_error_std := analyzer_results.reference_metrics.abs_perc_error_std
            error_normality := analyzer_results.reference_metrics.error_normality
            underperformance := analyzer_results.reference_metrics.underperformance
            error_bias := analyzer_results.error_bias }
      | some ref =>
        match me_mae_distr kHist ref with
        | Except.error e => Except.error e
        | Except.ok (ref_me_distr_v, ref_mae_distr_v) =>
          Except.ok
            { r2_score := r2_score_value
              rmsa := rmsa_score_value
              mean_error := analyzer_results.reference_metrics.mean_error
              me_distr := me_distr
              ref_me_distr := some ref_me_distr_v
              mean_abs_error := analyzer_results.reference_metrics.mean_abs_error
              mae_distr := mae_distr
              ref_mae_distr := some ref_mae_distr_v
              mean_abs_perc_error := analyzer_results.reference_metrics.mean_abs_perc_error
              abs_error_max := analyzer_results.reference_metrics.abs_error_max
              error_std := analyzer_results.reference_metrics.error_std
              abs_error_std := analyzer_results.reference_metrics.abs_error_std
              abs_perc_error_std := analyzer_results.reference_metrics.abs_perc_error_std
              error_normality := analyzer_results.reference_metrics.error_normality
              underperformance := analyzer_results.reference_metrics.underperformance
              error_bias := analyzer_results.error_bias }

/-- The end-to-end example dataset of the spec (§8): rows
`(target, prediction) = [(1,1),(2,1),(3,5),(4,4),(5,2)]`. -/
def exampleCurrent : Frame := ⟨[⟨1, 1⟩, ⟨2, 1⟩, ⟨3, 5⟩, ⟨4, 4⟩, ⟨5, 2⟩], none⟩

/-- A dataset with exactly three distinct target values. -/
def exampleSmall : Frame := ⟨[⟨1, 0⟩, ⟨2, 0⟩, ⟨3, 0⟩], none⟩

/-- Example run input: the spec's example current data, no reference. -/
def exInput : InputData := ⟨some exampleCurrent, none⟩

/-- Example run input with a reference dataset supplied. -/
def exInputRef : InputData := ⟨some exampleCurrent, some exampleSmall⟩

/-- A zero record, used only as a `getD` fallback below. -/
def emptyResults : RegressionPerformanceMetricsResults :=
  ⟨0, 0, 0, [], none, 0, [], none, 0, 0, 0, 0, 0, [], [], none⟩

/-- The concrete record `calculate` yields on `exInput` with 4 histogram
bins. -/
def exOut : RegressionPerformanceMetricsResults :=
  (calculate 4 exInput).toOption.getD emptyResults

/-- The concrete record `calculate` yields on `exInputRef` with 4 histogram
bins. -/
def exOutRef : RegressionPerformanceMetricsResults :=
  (calculate 4 exInputRef).toOption.getD emptyResults

/-- The concrete binner output on `exampleSmall` with 1 histogram bin. -/
def exSmallDistr : List (ℚ × ℕ) × List ((ℚ × ℚ) × ℚ × ℕ) :=
  (me_mae_distr 1 exampleSmall).toOption.getD ([], [])

/-- The concrete binner output on `exampleCurrent` with 4 histogram bins. -/
def exCurrentDistr : List (ℚ × ℕ) × List ((ℚ × ℚ) × ℚ × ℕ) :=
  (me_mae_distr 4 exampleCurrent).toOption.getD ([], [])

/-- Statement helper: the nine scalar metric fields of a result record all
equal the analyzer's scalar block for the frame `f`. -/
def scalarFieldsFrom (r : RegressionPerformanceMetricsResults) (f : Frame) : Prop :=
  r.mean_error = (referenceMetricsOf f).mean_error ∧
  r.mean_abs_error = (referenceMetricsOf f).mean_abs_error ∧
  r.mean_abs_perc_error = (referenceMetricsOf f).mean_abs_perc_error ∧
  r.abs_error_max = (referenceMetricsOf f).abs_error_max ∧
  r.error_std = (referenceMetricsOf f).error_std ∧
  r.abs_error_std = (referenceMetricsOf f).abs_error_std ∧
  r.abs_perc_error_std = (referenceMetricsOf f).abs_perc_error_std ∧
  r.error_normality = (referenceMetricsOf f).error_normality ∧
  r.underperformance = (referenceMetricsOf f).underperformance

/-! ### Bridging the executable `Rat.floor` / `Rat.ceil` to Mathlib's `⌊⌋` / `⌈⌉` -/

theorem ratFloor_eq (q : ℚ) : Rat.floor q = ⌊q⌋ := by
  rw [Rat.floor_def', Rat.floor_def]

theorem ratCeil_le {q : ℚ} {z : ℤ} (h : q ≤ (z : ℚ)) : Rat.ceil q ≤ z := by
  unfold Rat.ceil
  split
  · rename_i hden
    have hq : (q.num : ℚ) = q := by
      conv_rhs => rw [← Rat.num_div_den q]
      rw [hden]
      simp
    have hle : (q.num : ℚ) ≤ (z : ℚ) := hq ▸ h
    exact_mod_cast hle
  · rename_i hden
    have hfl : q.num / (q.den : ℤ) = ⌊q⌋ := (Rat.floor_def).symm
    rw [hfl]
    by_contra hc
    push_neg at hc
    have hz : z ≤ ⌊q⌋ := by omega
    have h1 : (z : ℚ) ≤ q := le_trans (by exact_mod_cast Int.le_floor.mp hz) (le_refl q)
    have hq : q = (z : ℚ) := le_antisymm h1 h |>.symm
    have : q.den = 1 := by rw [hq]; exact Rat.den_intCast z
    exact hden this

theorem le_ratCeil (q : ℚ) : q ≤ (Rat.ceil q : ℚ) := by
  unfold Rat.ceil
  split
  · rename_i hden
    rw [← Rat.num_div_den q, hden]
    simp
  · rename_i hden
    have hfl : q.num / (q.den : ℤ) = ⌊q⌋ := (Rat.floor_def).symm
    rw [hfl]
    push_cast
    exact le_of_lt (Int.lt_floor_add_one q)

theorem ratCeil_eq (q : ℚ) : Rat.ceil q = ⌈q⌉ :=
  le_antisymm (ratCeil_le (Int.le_ceil q)) (Int.ceil_le.mpr (le_ratCeil q))

/-! ### Basic facts about the list helpers -/

theorem listMin_le {l : List ℚ} {x : ℚ} (hx : x ∈ l) : listMin l ≤ x := by
  induction l with
  | nil => cases hx
  | cons a t ih =>
    cases t with
    | nil =>
      rcases List.mem_singleton.mp hx with rfl
      exact le_refl x
    | cons b t2 =>
      rcases List.mem_cons.mp hx with rfl | hmem
      · exact min_le_left _ _
      · exact le_trans (min_le_right _ _) (ih hmem)

theorem le_listMax {l : List ℚ} {x : ℚ} (hx : x ∈ l) : x ≤ listMax l := by
  induction l with
  | nil => cases hx
  | cons a t ih =>
    cases t with
    | nil =>
      rcases List.mem_singleton.mp hx with rfl
      exact le_refl x
    | cons b t2 =>
      rcases List.mem_cons.mp hx with rfl | hmem
      · exact le_max_left _ _
      · exact le_trans (ih hmem) (le_max_right _ _)

theorem listMin_le_listMax {l : List ℚ} (h : l ≠ []) : listMin l ≤ listMax l := by
  cases l with
  | nil => exact absurd rfl h
  | cons a t => exact le_trans (listMin_le (List.mem_cons_self a t)) (le_listMax (List.mem_cons_self a t))

/-- Summing, over all bin indices below `k`, the occurrence counts of each
index in a list of indices gives back the list's length, provided every
index is below `k`. -/
theorem sum_ite_one_of_lt {a k : ℕ} (h : a < k) :
    ((List.range k).map (fun j => if a = j then 1 else 0)).sum = 1 := by
  induction k with
  | zero => omega
  | succ n ih =>
    rw [List.range_succ, List.map_append, List.sum_append]
    by_cases hc : a < n
    · have hne : a ≠ n := by omega
      simp [ih hc, hne]
    · have ha : a = n := by omega
      subst ha
      have hz : ((List.range a).map (fun j => if a = j then 1 else 0)).sum = 0 := by
        apply List.sum_eq_zero
        intro x hx
        rcases List.mem_map.mp hx with ⟨j, hj, rfl⟩
        have : j < a := List.mem_range.mp hj
        simp [show a ≠ j by omega]
      simp [hz]

theorem sum_count_range {k : ℕ} {l : List ℕ} (h : ∀ x ∈ l, x < k) :
    ((List.range k).map (fun j => l.count j)).sum = l.length := by
  induction l with
  | nil => simp
  | cons a t ih =>
    have ha : a < k := h a (List.mem_cons_self a t)
    have iht := ih (fun x hx => h x (List.mem_cons_of_mem a hx))
    have hsplit : ∀ j : ℕ, (a :: t).count j = t.count j + (if a = j then 1 else 0) := by
      intro j
      rw [List.count_cons]
      simp [beq_iff_eq]
    calc ((List.range k).map (fun j => (a :: t).count j)).sum
        = ((List.range k).map (fun j => t.count j + (if a = j then 1 else 0))).sum := by
          simp only [hsplit]
      _ = ((List.range k).map (fun j => t.count j)).sum
            + ((List.range k).map (fun j => if a = j then 1 else 0)).sum := by
          rw [← List.sum_map_add]
      _ = t.length + 1 := by rw [iht, sum_ite_one_of_lt ha]
      _ = (a :: t).length := by simp

/-! ### Facts about the quantization and histogram bin assignment -/

theorem cutPad_pos (mn : ℚ) : 0 < cutPad mn := by
  unfold cutPad
  split
  · norm_num
  · rename_i h
    have habs : 0 < |mn| := abs_pos.mpr h
    linarith

/-- Every value between the column minimum and maximum lands in one of the
`k` quantization bins. -/
theorem cutIndex_lt {mn mx v : ℚ} {k : ℕ} (hk : 0 < k) (h1 : mn ≤ v) (h2 : v ≤ mx) :
    cutIndex mn mx k v < k := by
  unfold cutIndex
  split
  · rename_i hlt
    have hden : (0 : ℚ) < mx - mn := by linarith
    have hknn : (0 : ℚ) ≤ (k : ℚ) := by positivity
    have hle : (v - mn) * k / (mx - mn) ≤ ((k : ℤ) : ℚ) := by
      push_cast
      rw [div_le_iff₀ hden]
      nlinarith
    have hceil := ratCeil_le hle
    omega
  · rename_i hnlt
    have hmx : mx ≤ mn := le_of_not_lt hnlt
    have hv : v = mn := le_antisymm (le_trans h2 hmx) h1
    subst hv
    have hd := cutPad_pos v
    have hne : cutPad v ≠ 0 := ne_of_gt hd
    have hsimp : (v - (v - cutPad v)) * k / (2 * cutPad v) = (k : ℚ) / 2 := by
      field_simp
      ring
    rw [hsimp]
    have hknn : (0 : ℚ) ≤ (k : ℚ) := by positivity
    have hle : (k : ℚ) / 2 ≤ ((k : ℤ) : ℚ) := by push_cast; linarith
    have hceil := ratCeil_le hle
    omega

theorem histIndex_lt {first last x : ℚ} {k : ℕ} (hk : 0 < k) :
    histIndex first last k x < k :=
  lt_of_le_of_lt (Nat.min_le_right _ _) (by omega)

/-- The lower edges of the quantization-bin intervals are strictly
increasing. -/
theorem cutLeftEdge_strictMono {mn mx : ℚ} {k i j : ℕ} (hk : 0 < k) (hij : i < j) :
    cutLeftEdge mn mx k i < cutLeftEdge mn mx k j := by
  have hkq : (0 : ℚ) < (k : ℚ) := by exact_mod_cast hk
  have hijq : (i : ℚ) < (j : ℚ) := by exact_mod_cast hij
  unfold cutLeftEdge
  split
  · rename_i hlt
    have hr : (0 : ℚ) < mx - mn := by linarith
    have hj0 : j ≠ 0 := by omega
    by_cases hi : i = 0
    · simp only [if_pos hi, if_neg hj0]
      have h1 : (0 : ℚ) < (mx - mn) / 1000 := by positivity
      have h2 : (0 : ℚ) ≤ j * (mx - mn) / k := by positivity
      linarith
    · simp only [if_neg hi, if_neg hj0]
      have hmul : (i : ℚ) * (mx - mn) < (j : ℚ) * (mx - mn) :=
        mul_lt_mul_of_pos_right hijq hr
      have hdiv : (i : ℚ) * (mx - mn) / k < (j : ℚ) * (mx - mn) / k :=
        (div_lt_div_iff_of_pos_right hkq).mpr hmul
      linarith
  · have hd := cutPad_pos mn
    have hmul : (i : ℚ) * (2 * cutPad mn) < (j : ℚ) * (2 * cutPad mn) :=
      mul_lt_mul_of_pos_right hijq (by linarith)
    have hdiv : (i : ℚ) * (2 * cutPad mn) / k < (j : ℚ) * (2 * cutPad mn) / k :=
      (div_lt_div_iff_of_pos_right hkq).mpr hmul
    linarith

/-- The left edges of the histogram bins are strictly increasing. -/
theorem histEdge_strictMono {first last : ℚ} {k i j : ℕ} (hk : 0 < k)
    (hfl : first < last) (hij : i < j) :
    histEdge first last k i < histEdge first last k j := by
  have hkq : (0 : ℚ) < (k : ℚ) := by exact_mod_cast hk
  have hijq : (i : ℚ) < (j : ℚ) := by exact_mod_cast hij
  unfold histEdge
  have hmul : (i : ℚ) * (last - first) < (j : ℚ) * (last - first) :=
    mul_lt_mul_of_pos_right hijq (by linarith)
  have hdiv : (i : ℚ) * (last - first) / k < (j : ℚ) * (last - first) / k :=
    (div_lt_div_iff_of_pos_right hkq).mpr hmul
  linarith

theorem histRange_lt {data : List ℚ} (h : data ≠ []) :
    (histRange data).1 < (histRange data).2 := by
  unfold histRange
  split
  · rename_i heq
    simp only
    linarith
  · rename_i hne
    simp only
    exact lt_of_le_of_ne (listMin_le_listMax h) hne

theorem rows_ne_nil_of_cutK {f : Frame} (h : cutK f ≠ 0) : f.rows ≠ [] := by
  intro hnil
  apply h
  unfold cutK nunique targets
  rw [hnil]
  simp

theorem errorSeries_ne_nil {f : Frame} (h : f.rows ≠ []) : errorSeries f ≠ [] := by
  unfold errorSeries
  simpa using h

/-- Every entry of the `target_binned` column is a valid bin index. -/
theorem binnedColumn_lt {f : Frame} (hk : cutK f ≠ 0) :
    ∀ x ∈ binnedColumn f, x < cutK f := by
  intro x hx
  rcases List.mem_map.mp hx with ⟨r, hr, rfl⟩
  have hmem : r.target ∈ targets f := List.mem_map.mpr ⟨r, hr, rfl⟩
  exact cutIndex_lt (Nat.pos_of_ne_zero hk) (listMin_le hmem) (le_listMax hmem)

/-- What a successful run of the binner yields: the two entry lists, a
positive quantization bin count, and no empty quantization bin. -/
theorem me_mae_distr_ok {kHist : ℕ} {f : Frame}
    {me : List (ℚ × ℕ)} {mae : List ((ℚ × ℚ) × ℚ × ℕ)}
    (h : me_mae_distr kHist f = Except.ok (me, mae)) :
    me = meEntries kHist (errorSeries f) ∧ mae = maeEntries f ∧
      cutK f ≠ 0 ∧ ∀ i, i < cutK f → binCount f i ≠ 0 := by
  unfold me_mae_distr at h
  split at h
  · cases h
  · rename_i h0
    split at h
    · rename_i hall
      have hp := Except.ok.inj h
      rw [Prod.mk.injEq] at hp
      obtain ⟨hme, hmae⟩ := hp
      refine ⟨hme.symm, hmae.symm, h0, ?_⟩
      intro i hi
      have := List.all_eq_true.mp hall i (List.mem_range.mpr hi)
      simpa using this
    · cases h

/-! ### The claims -/

/-- C3: for every dataset the binner accepts, the number of
target-quantization bins used for `binned_mae` equals
`min(distinct non-missing target values, 10)`: the emitted entry list has
exactly that many entries, one per bin. -/
theorem C3_quantization_bin_count (kHist : ℕ) (f : Frame)
    (me : List (ℚ × ℕ)) (mae : List ((ℚ × ℚ) × ℚ × ℕ))
    (h : me_mae_distr kHist f = Except.ok (me, mae)) :
    mae.length = min (nunique (targets f)) 10 := by
  obtain ⟨-, hmae, -, -⟩ := me_mae_distr_ok h
  subst hmae
  unfold maeEntries cutK
  simp

/-- C3 witness: a target with 3 distinct values yields 3 bins. -/
theorem C3_quantization_bin_count_witness :
    exSmallDistr.2.length = min (nunique (targets exampleSmall)) 10 ∧
    exSmallDistr.2.length = 3 :=
  ⟨C3_quantization_bin_count 1 exampleSmall exSmallDistr.1 exSmallDistr.2
      (by with_unfolding_all rfl),
   by with_unfolding_all rfl⟩

/-- C4: for every dataset of `N` (all valid) rows the binner accepts, the
counts of the signed-error histogram sum to `N`, and so do the counts of
the `binned_mae` entries. -/
theorem C4_counts_sum_to_rows (kHist : ℕ) (f : Frame)
    (me : List (ℚ × ℕ)) (mae : List ((ℚ × ℚ) × ℚ × ℕ))
    (hk : 1 ≤ kHist) (h : me_mae_distr kHist f = Except.ok (me, mae)) :
    (me.map Prod.snd).sum = f.rows.length ∧
    (mae.map (fun e => e.2.2)).sum = f.rows.length := by
  obtain ⟨hme, hmae, hk0, -⟩ := me_mae_distr_ok h
  subst hme
  subst hmae
  constructor
  · unfold meEntries
    rw [List.map_map]
    have hlt : ∀ x ∈ histIndices kHist (errorSeries f), x < kHist := by
      intro x hx
      rcases List.mem_map.mp hx with ⟨e, he, rfl⟩
      exact histIndex_lt hk
    calc ((List.range kHist).map
            ((fun e => Prod.snd e) ∘ fun j =>
              (histEdge (histRange (errorSeries f)).1 (histRange (errorSeries f)).2 kHist j,
               (histIndices kHist (errorSeries f)).count j))).sum
        = (histIndices kHist (errorSeries f)).length := sum_count_range hlt
      _ = f.rows.length := by unfold histIndices errorSeries; simp
  · unfold maeEntries
    rw [List.map_map]
    calc ((List.range (cutK f)).map
            ((fun e => e.2.2) ∘ fun i =>
              ((cutLeftEdge (tMin f) (tMax f) (cutK f) i,
                cutRightEdge (tMin f) (tMax f) (cutK f) i),
               binMae f i, binCount f i))).sum
        = (binnedColumn f).length := sum_count_range (binnedColumn_lt hk0)
      _ = f.rows.length := by unfold binnedColumn; simp

/-- C4 witness: on the spec's example dataset both count sums equal 5, the
number of rows. -/
theorem C4_counts_sum_to_rows_witness :
    ((exCurrentDistr.1.map Prod.snd).sum = exampleCurrent.rows.length ∧
      (exCurrentDistr.2.map (fun e => e.2.2)).sum = exampleCurrent.rows.length) ∧
    exampleCurrent.rows.length = 5 :=
  ⟨C4_counts_sum_to_rows 4 exampleCurrent exCurrentDistr.1 exCurrentDistr.2
      (by omega) (by with_unfolding_all rfl),
   rfl⟩

/-- C5: `calculate` with `current_dataset = None` signals the
missing-dataset domain error (lines 42–43 raise
`ValueError("current dataset should be present")`) for every histogram bin
count and every reference dataset, before any analyzer or binner work: the
guard is the first statement of `calculate`, and the error carries no
computed value. -/
theorem C5_missing_current_raises :
    ∀ (kHist : ℕ) (refOpt : Option Frame),
      calculate kHist ⟨none, refOpt⟩ =
        Except.error "current dataset should be present" :=
  fun _ _ => rfl

/-- C8: on the spec's end-to-end example (rows
`[(1,1),(2,1),(3,5),(4,4),(5,2)]`, no reference) the `rmsa` field equals
`mean((target - prediction)^2) = 14/5 = 2.8`, computed directly from the
current dataset, for every histogram bin count. -/
theorem C8_example_mean_squared_error :
    ∀ kHist : ℕ,
      (calculate kHist exInput).toOption.map (fun r => r.rmsa) = some (14 / 5) ∧
      mean_squared_error exampleCurrent = 14 / 5 := by
  intro k
  constructor
  · with_unfolding_all rfl
  · with_unfolding_all rfl

/-- C9: the Distribution Binner leaves the caller's dataset unchanged — the
table handed back to the caller is the input table, while the derived
`target_binned` column lives only on the private copy (`binnerWorkFrame`),
which differs from the caller's table whenever the latter has no such
column. -/
theorem C9_binner_no_mutation :
    ∀ (kHist : ℕ) (df : Frame),
      (bin_distributions kHist df).2 = df ∧
      (df.binned = none → binnerWorkFrame df ≠ df) := by
  intro kHist df
  refine ⟨rfl, ?_⟩
  intro hb heq
  have hbinned : (binnerWorkFrame df).binned = df.binned := congrArg Frame.binned heq
  rw [hb] at hbinned
  simp [binnerWorkFrame, frameCopy] at hbinned

/-- C9 witness: on the example dataset the caller's table is returned
unchanged though the working copy differs from it. -/
theorem C9_binner_no_mutation_witness :
    (bin_distributions 1 exampleSmall).2 = exampleSmall ∧
    binnerWorkFrame exampleSmall ≠ exampleSmall :=
  ⟨(C9_binner_no_mutation 1 exampleSmall).1,
   (C9_binner_no_mutation 1 exampleSmall).2 rfl⟩

/-- C10: `calculate` is deterministic — two invocations on identical input
(same current dataset, same optional reference, same histogram bin count)
yield the same result record, hence bit-identical scalar metrics and
identical histogram and binned-MAE entry sequences, order included. -/
theorem C10_calculate_deterministic (kHist : ℕ) (d : InputData)
    (r1 r2 : RegressionPerformanceMetricsResults)
    (h1 : calculate kHist d = Except.ok r1)
    (h2 : calculate kHist d = Except.ok r2) : r1 = r2 := by
  rw [h1] at h2
  exact Except.ok.inj h2

/-- C10 witness: the two runs on the example input return the same record. -/
theorem C10_calculate_deterministic_witness : exOut = exOut :=
  C10_calculate_deterministic 4 exInput exOut exOut
    (by with_unfolding_all rfl) (by with_unfolding_all rfl)

/-- C6: whenever the binner returns, the `binned_mae` output has exactly one
entry per quantization bin, every bin holds at least one row (an empty bin
makes the source raise instead of returning), entry `i` carries bin `i`'s
row count, and the entries are ordered by strictly ascending lower interval
edge. -/
theorem C6_mae_entries_ordered_nonempty (kHist : ℕ) (f : Frame)
    (me : List (ℚ × ℕ)) (mae : List ((ℚ × ℚ) × ℚ × ℕ))
    (h : me_mae_distr kHist f = Except.ok (me, mae)) :
    mae.length = cutK f ∧
    (∀ i, i < cutK f → 0 < binCount f i) ∧
    (∀ i, ∀ hi : i < mae.length,
        (mae.get ⟨i, hi⟩).2.2 = binCount f i ∧ 0 < (mae.get ⟨i, hi⟩).2.2) ∧
    List.Pairwise (fun a b => a.1.1 < b.1.1) mae := by
  obtain ⟨-, hmae, hk0, hne⟩ := me_mae_distr_ok h
  subst hmae
  have hlen : (maeEntries f).length = cutK f := by
    unfold maeEntries
    simp
  refine ⟨hlen, fun i hi => Nat.pos_of_ne_zero (hne i hi), ?_, ?_⟩
  · intro i hi
    have hi2 : i < cutK f := by rwa [hlen] at hi
    have hget : ((maeEntries f).get ⟨i, hi⟩).2.2 = binCount f i := by
      unfold maeEntries
      simp [List.get_eq_getElem, List.getElem_map, List.getElem_range]
    exact ⟨hget, hget ▸ Nat.pos_of_ne_zero (hne i hi2)⟩
  · unfold maeEntries
    rw [List.pairwise_map]
    exact (List.pairwise_lt_range (cutK f)).imp
      (fun hab => cutLeftEdge_strictMono (Nat.pos_of_ne_zero hk0) hab)

/-- C6 witness: the property instantiated on the spec's example dataset. -/
theorem C6_mae_entries_ordered_nonempty_witness :
    exCurrentDistr.2.length = cutK exampleCurrent ∧
    (∀ i, i < cutK exampleCurrent → 0 < binCount exampleCurrent i) ∧
    (∀ i, ∀ hi : i < exCurrentDistr.2.length,
        (exCurrentDistr.2.get ⟨i, hi⟩).2.2 = binCount exampleCurrent i ∧
        0 < (exCurrentDistr.2.get ⟨i, hi⟩).2.2) ∧
    List.Pairwise (fun a b => a.1.1 < b.1.1) exCurrentDistr.2 :=
  C6_mae_entries_ordered_nonempty 4 exampleCurrent exCurrentDistr.1 exCurrentDistr.2
    (by with_unfolding_all rfl)

/-- C7: whenever the binner returns, `me_distr` is the ordered sequence of
(left edge, count) pairs: one entry per histogram bin, entry `i` pairing the
`i`-th bin's left edge with that bin's count, in strictly ascending
left-edge order. -/
theorem C7_histogram_entries_ordered (kHist : ℕ) (f : Frame)
    (me : List (ℚ × ℕ)) (mae : List ((ℚ × ℚ) × ℚ × ℕ))
    (hk : 1 ≤ kHist) (h : me_mae_distr kHist f = Except.ok (me, mae)) :
    me.length = kHist ∧
    (∀ i, ∀ hi : i < me.length,
        me.get ⟨i, hi⟩ =
          (histEdge (histRange (errorSeries f)).1 (histRange (errorSeries f)).2 kHist i,
           (histIndices kHist (errorSeries f)).count i)) ∧
    List.Pairwise (fun a b => a.1 < b.1) me := by
  obtain ⟨hme, -, hk0, -⟩ := me_mae_distr_ok h
  subst hme
  have hfl := histRange_lt (errorSeries_ne_nil (rows_ne_nil_of_cutK hk0))
  refine ⟨by unfold meEntries; simp, ?_, ?_⟩
  · intro i hi
    unfold meEntries
    simp [List.get_eq_getElem, List.getElem_map, List.getElem_range]
  · unfold meEntries
    rw [List.pairwise_map]
    exact (List.pairwise_lt_range kHist).imp
      (fun hab => histEdge_strictMono hk hfl hab)

/-- C7 witness: the property instantiated on the spec's example dataset. -/
theorem C7_histogram_entries_ordered_witness :
    exCurrentDistr.1.length = 4 ∧
    (∀ i, ∀ hi : i < exCurrentDistr.1.length,
        exCurrentDistr.1.get ⟨i, hi⟩ =
          (histEdge (histRange (errorSeries exampleCurrent)).1
             (histRange (errorSeries exampleCurrent)).2 4 i,
           (histIndices 4 (errorSeries exampleCurrent)).count i)) ∧
    List.Pairwise (fun a b => a.1 < b.1) exCurrentDistr.1 :=
  C7_histogram_entries_ordered 4 exampleCurrent exCurrentDistr.1 exCurrentDistr.2
    (by omega) (by with_unfolding_all rfl)

/-- C1: for every successful `calculate` run, each reference-derived field
of the result record (`ref_me_distr`, `ref_mae_distr`, `error_bias`) is
present exactly when a reference dataset was supplied: all three are `none`
when `reference_data` is absent and all three are `some` when it is
present. -/
theorem C1_reference_fields_iff (kHist : ℕ) (d : InputData)
    (r : RegressionPerformanceMetricsResults)
    (h : calculate kHist d = Except.ok r) :
    r.ref_me_distr.isSome = d.reference_data.isSome ∧
    r.ref_mae_distr.isSome = d.reference_data.isSome ∧
    r.error_bias.isSome = d.reference_data.isSome := by
  obtain ⟨cd, rd⟩ := d
  cases cd with
  | none => cases h
  | some cur =>
    cases rd with
    | none =>
      unfold calculate at h
      dsimp only at h ⊢
      split at h
      · cases h
      · have hr := Except.ok.inj h
        subst hr
        simp [RegressionPerformanceAnalyzer.calculate]
    | some ref =>
      unfold calculate at h
      dsimp only at h ⊢
      split at h
      · cases h
      · split at h
        · cases h
        · have hr := Except.ok.inj h
          subst hr
          simp [RegressionPerformanceAnalyzer.calculate]

/-- C1 witness: on the example run with a reference dataset all three
reference-derived fields are present. -/
theorem C1_reference_fields_iff_witness :
    exOutRef.ref_me_distr.isSome = exInputRef.reference_data.isSome ∧
    exOutRef.ref_mae_distr.isSome = exInputRef.reference_data.isSome ∧
    exOutRef.error_bias.isSome = exInputRef.reference_data.isSome :=
  C1_reference_fields_iff 4 exInputRef exOutRef (by with_unfolding_all rfl)

/-- C2: the nine scalar metric fields of the result record are always read
off the analyzer's `reference_metrics`; since `calculate` passes the
reference dataset in the analyzer's reference slot when one is supplied
(and the current dataset there only when none is), those fields describe
the reference dataset whenever one is supplied, and the current dataset
only when none is. -/
theorem C2_scalars_describe_reference (kHist : ℕ) (d : InputData)
    (r : RegressionPerformanceMetricsResults)
    (h : calculate kHist d = Except.ok r) :
    (∀ ref, d.reference_data = some ref → scalarFieldsFrom r ref) ∧
    (d.reference_data = none →
      ∀ cur, d.current_data = some cur → scalarFieldsFrom r cur) := by
  obtain ⟨cd, rd⟩ := d
  cases cd with
  | none => cases h
  | some cur0 =>
    cases rd with
    | none =>
      unfold calculate at h
      dsimp only at h ⊢
      split at h
      · cases h
      · have hr := Except.ok.inj h
        subst hr
        constructor
        · intro ref href
          cases href
        · intro hnone cur hcur
          obtain rfl := Option.some.inj hcur
          unfold scalarFieldsFrom
          simp [RegressionPerformanceAnalyzer.calculate]
    | some ref0 =>
      unfold calculate at h
      dsimp only at h ⊢
      split at h
      · cases h
      · split at h
        · cases h
        · have hr := Except.ok.inj h
          subst hr
          constructor
          · intro ref href
            obtain rfl := Option.some.inj href
            unfold scalarFieldsFrom
            simp [RegressionPerformanceAnalyzer.calculate]
          · intro hnone
            cases hnone

/-- C2 witness: on the example run with reference `exampleSmall` the scalar
fields equal the analyzer block of the reference dataset (whose mean error
is 2), not that of the current dataset (whose mean error is 2/5). -/
theorem C2_scalars_describe_reference_witness :
    scalarFieldsFrom exOutRef exampleSmall ∧
    (referenceMetricsOf exampleSmall).mean_error = 2 ∧
    (referenceMetricsOf exampleCurrent).mean_error = 2 / 5 :=
  ⟨(C2_scalars_describe_reference 4 exInputRef exOutRef
      (by with_unfolding_all rfl)).1 exampleSmall rfl,
   by with_unfolding_all rfl,
   by with_unfolding_all rfl⟩
